import Mathlib

/-!
Verification of the mutation-reconciliation engine of `src/src-ui/system_state.ts`
(class `SystemState`): a shallow embedding of its data model and operations,
followed by theorems about the claims of the specification.

JavaScript `Map`s are embedded as insertion-ordered association lists
(`aget`/`aset`/`adel` mirror `Map.get`/`Map.set`/`Map.delete`); `aset` updates an
existing key in place (JS `Map.set` keeps the key's insertion position) and
appends new keys, exactly as a JS `Map` does.  `console.*` calls are embedded as
an append-only `log` of tagged diagnostics (the message text is abstracted to a
tag naming the call site).  A ghost field `writes` records every write to an
`entities[e][c]` component slot, instrumenting the "observable write" count the
spec talks about.
-/

namespace Ironfell

/-- `ComponentId`: opaque small integer identifying a component type
(`types/component.ts`: `export type ComponentId = number`). -/
abbrev ComponentId := Nat

/-- Modelled from the spec: `types/entity.ts` is not part of the sources;
per §3 an `EntityId` is a 64-bit numeric value packing index and generation.
We embed it as a natural number. -/
abbrev EntityId := Nat

/- JSON-like component values (`ComponentValue = TValue`, an arbitrary
JSON-serializable value).  Arrays and objects are mutual inductives rather than
`List`-nested ones so that all functions below are structurally recursive and
kernel-reducible. -/
mutual
/-- A JSON-like component value (`ComponentValue = TValue`). -/
inductive JValue where
  | null : JValue
  | bool (b : Bool) : JValue
  | num (n : Int) : JValue
  | str (s : String) : JValue
  | arr (xs : JList) : JValue
  | obj (fs : JFields) : JValue

/-- A JSON array's elements. -/
inductive JList where
  | nil : JList
  | cons (hd : JValue) (tl : JList) : JList

/-- A JSON object's fields. -/
inductive JFields where
  | nil : JFields
  | cons (k : String) (v : JValue) (tl : JFields) : JFields
end

/-- `Map.get`: first binding of the key, if any. -/
def aget {α β : Type} [DecidableEq α] : List (α × β) → α → Option β
  | [], _ => none
  | (k, v) :: rest, a => if k = a then some v else aget rest a

/-- `Map.set`: update an existing key in place (keeping insertion order),
append a fresh key at the end. -/
def aset {α β : Type} [DecidableEq α] : List (α × β) → α → β → List (α × β)
  | [], a, b => [(a, b)]
  | (k, v) :: rest, a, b => if k = a then (a, b) :: rest else (k, v) :: aset rest a b

/-- `Map.delete`: drop the binding of a key. -/
def adel {α β : Type} [DecidableEq α] (l : List (α × β)) (a : α) : List (α × β) :=
  l.filter (fun p => decide (p.1 ≠ a))

/-- Decimal digits of a natural number (most significant first); `fuel`
structural recursion keeps the definition kernel-reducible, and `fuel = n + 1`
always suffices. -/
def natDigits : Nat → Nat → List Char
  | 0, _ => []
  | f + 1, n =>
    if n < 10 then [Char.ofNat (48 + n)]
    else natDigits f (n / 10) ++ [Char.ofNat (48 + n % 10)]

/-- Decimal rendering of a natural number. -/
def natStr (n : Nat) : String := ⟨natDigits (n + 1) n⟩

/-- Decimal rendering of an integer, as `JSON.stringify` renders it. -/
def intStr : Int → String
  | .ofNat n => natStr n
  | .negSucc m => ⟨'-' :: natDigits (m + 2) (m + 1)⟩

/-- JSON string escaping of one character (the escapes `JSON.stringify`
emits for quotes, backslashes and common control characters). -/
def escChar (c : Char) : List Char :=
  if c = '"' then ['\\', '"']
  else if c = '\\' then ['\\', '\\']
  else if c = '\n' then ['\\', 'n']
  else if c = '\t' then ['\\', 't']
  else if c = '\r' then ['\\', 'r']
  else [c]

/-- A JSON string literal: `JSON.stringify` of a string. -/
def jsonQuote (s : String) : String := ⟨'"' :: (s.data.map escChar).flatten ++ ['"']⟩

mutual
/-- `JSON.stringify` on our value model (used by the component value cache). -/
def jsonStr : JValue → String
  | .null => "null"
  | .bool true => "true"
  | .bool false => "false"
  | .num n => intStr n
  | .str s => jsonQuote s
  | .arr xs => "[" ++ jsonStrList xs ++ "]"
  | .obj fs => "\x7b" ++ jsonStrFields fs ++ "\x7d"

/-- `JSON.stringify` of an array's comma-separated elements. -/
def jsonStrList : JList → String
  | .nil => ""
  | .cons x .nil => jsonStr x
  | .cons x (.cons y tl) => jsonStr x ++ "," ++ jsonStrList (.cons y tl)

/-- `JSON.stringify` of an object's comma-separated fields. -/
def jsonStrFields : JFields → String
  | .nil => ""
  | .cons k v .nil => jsonQuote k ++ ":" ++ jsonStr v
  | .cons k v (.cons k2 v2 tl) =>
    jsonQuote k ++ ":" ++ jsonStr v ++ "," ++ jsonStrFields (.cons k2 v2 tl)
end

/-- JavaScript loose `value == null` on a JSON value. -/
def isNullJ : JValue → Bool
  | .null => true
  | _ => false

/-- JavaScript truthiness of a JSON value (`NaN` and `-0` do not arise in this
integer-valued model). -/
def truthy : JValue → Bool
  | .null => false
  | .bool b => b
  | .num n => decide (n ≠ 0)
  | .str s => decide (s ≠ "")
  | .arr _ => true
  | .obj _ => true

/-- The TS code returns a component value `as string`; strings pass through
verbatim, any other (truthy) value is rendered by its JSON text. -/
def valueToNameString : JValue → String
  | .str s => s
  | v => jsonStr v

namespace bevyTypes

/-- Modelled from the spec: `types/bevy.ts` is not part of the sources.  The
designated "parent pointer" component type name (§4.2). -/
def PARENT : String := "bevy_ecs::hierarchy::ChildOf"

/-- Modelled from the spec: the designated "name" component type name (§4.3). -/
def NAME : String := "bevy_ecs::name::Name"

/-- Modelled from the spec: the children-listing component type name, skipped as
uninformative by display-name resolution step 4 (§4.3). -/
def CHILDREN : String := "bevy_ecs::hierarchy::Children"

/-- Modelled from the spec: the internal-observer hidden marker type (§4.2). -/
def OBSERVER : String := "bevy_ecs::observer::runner::Observer"

/-- Modelled from the spec: the system-identifier hidden marker type (§4.2). -/
def SYSTEM_ID_MARKER : String := "bevy_ecs::system::system_registry::SystemIdMarker"

end bevyTypes

/-- Modelled from the spec: the engine's own foundational type namespaces,
`bevyCrates` of the missing `types/bevy.ts` (§4.3 step 3). -/
def bevyCrates : List String :=
  ["bevy_app", "bevy_ecs", "bevy_transform", "bevy_render", "bevy_window",
   "bevy_core_pipeline", "bevy_pbr", "bevy_hierarchy"]

/-- One entry of the common-names table: a static label, or a formatter of the
component's value; a formatter result of `none` models a thrown exception. -/
inductive CommonEntry where
  | label (s : String)
  | fmt (f : JValue → Option String)

/-- Modelled from the spec: the fixed priority list `COMMON_NAMES` of the
missing `types/bevy.ts` — "a fixed priority list of common component
type-names; ... a type-specific formatter (a static label, or a function of
that component's value)" (§4.3 step 2). -/
def COMMON_NAMES : List (String × CommonEntry) :=
  [("bevy_window::window::Window",
      .fmt fun v => match v with
        | .str s => some ("Window " ++ s)
        | _ => none),
   ("bevy_core_pipeline::core_3d::camera_3d::Camera3d", .label "Camera3d"),
   ("bevy_pbr::light::point_light::PointLight", .label "PointLight")]

/-- A component definition as delivered by `component` events
(`ComponentInfo & \x7b id \x7d`; only `id` and `name` are consumed by the core). -/
structure ComponentInfo where
  id : ComponentId
  name : String
  deriving DecidableEq

/-- Modelled from the spec: a registry `TypeDescriptor`, "at minimum providing
a `short_name`" (§3); `types/registry.ts` is not part of the sources. -/
structure TType where
  short_name : String
  deriving DecidableEq

/-- One mirrored component slot: `\x7b value, disabled \x7d`. -/
structure Slot where
  value : JValue
  disabled : Bool

/-- An entity's record: `ComponentId → Slot`, insertion-ordered. -/
abbrev EntityRecord := List (ComponentId × Slot)

/-- An entity-scoped mutation; `unknown` stands for any runtime value whose
`kind` is neither `"change"` nor `"remove"` (the final `console.warn` branch). -/
inductive EntityMutation where
  | change (changes : List (ComponentId × Bool × JValue))
           (removes : List (ComponentId × Bool))
  | remove
  | unknown

/-- A stream event; `unknown` stands for any runtime value whose `kind` is
none of the four recognized tags (the final `console.log` branch). -/
inductive StreamEvent where
  | typeRegistry (types : List (String × TType))
  | component (components : List ComponentInfo)
  | entity (entity : EntityId) (mutation : EntityMutation)
  | schedules
  | unknown

/-- Tagged diagnostics standing for the `console.*` calls of the reconciler
(message text abstracted to the call site and the entity concerned). -/
inductive LogEntry where
  | removesOnUntracked (e : EntityId)
  | changedComponents (e : EntityId)
  | unknownMutation (e : EntityId)
  | unknownEventKind
  deriving DecidableEq

/-- The `SystemState` class.  `log` and `writes` are ghost instrumentation:
`log` records diagnostics, `writes` records each write of an `entities[e][c]`
component slot. -/
structure SystemState where
  components : List (ComponentId × ComponentInfo) := []
  registry : List (String × TType) := []
  componentNameToIdMap : List (String × ComponentId) := []
  entities : List (EntityId × EntityRecord) := []
  childParentMap : List (EntityId × Option JValue) := []
  entityNames : List (EntityId × String) := []
  componentValueCache : List (EntityId × List (ComponentId × String)) := []
  log : List LogEntry := []
  writes : List (EntityId × ComponentId) := []

/-- The freshly constructed, empty `SystemState`. -/
def initState : SystemState := {}

/-- `setRegistry`: insert every delivered type, last write wins. -/
def setRegistry (s : SystemState) (types : List (String × TType)) : SystemState :=
  { s with registry := types.foldl (fun m t => aset m t.1 t.2) s.registry }

/-- `setComponents`: insert each definition by id and index `name → id`. -/
def setComponents (s : SystemState) (comps : List ComponentInfo) : SystemState :=
  { s with
    components := comps.foldl (fun m c => aset m c.id c) s.components
    componentNameToIdMap :=
      comps.foldl (fun m c => aset m c.name c.id) s.componentNameToIdMap }

/-- `getComponentName`'s result record. -/
structure ResolvedName where
  name : Option String
  short_name : Option String
  deriving DecidableEq

/-- `getComponentName`: definition lookup, then registry lookup for the short
name, with `registeredInfo?.short_name || info.name` falsy fallback. -/
def getComponentName (s : SystemState) (id : ComponentId) : ResolvedName :=
  match aget s.components id with
  | none => ⟨none, none⟩
  | some info =>
    let short :=
      match aget s.registry info.name with
      | some t => if t.short_name ≠ "" then t.short_name else info.name
      | none => info.name
    ⟨some info.name, some short⟩

/-- Display-name resolution, step 1: the designated name component's value,
when truthy. -/
def nameFromNameComponent (s : SystemState) (r : EntityRecord) : Option String :=
  match aget s.componentNameToIdMap bevyTypes.NAME with
  | none => none
  | some nc =>
    match aget r nc with
    | none => none
    | some slot => if truthy slot.value then some (valueToNameString slot.value) else none

/-- Display-name resolution, step 2: walk `COMMON_NAMES`; a formatter that
throws (`none`) breaks out of the walk (TS `catch \x7b break; \x7d`). -/
def commonNameSearch (s : SystemState) (r : EntityRecord) :
    List (String × CommonEntry) → Option String
  | [] => none
  | (nm, entry) :: rest =>
    match aget s.componentNameToIdMap nm with
    | none => commonNameSearch s r rest
    | some cid =>
      match aget r cid with
      | none => commonNameSearch s r rest
      | some slot =>
        match entry with
        | .label l => some l
        | .fmt f => f slot.value

/-- Is the first char list a prefix of the second?  (`String.startsWith` of the
TS code, restated structurally over the characters.) -/
def isPrefixList : List Char → List Char → Bool
  | [], _ => true
  | _ :: _, [] => false
  | a :: as, b :: bs => a = b && isPrefixList as bs

/-- `a.startsWith b` on strings. -/
def strStartsWith (s p : String) : Bool := isPrefixList p.data s.data

/-- Display-name resolution, step 3: first tracked component, in insertion
order, whose resolved name is outside the engine's own crates. -/
def firstNonBevyShortName (s : SystemState) : List (ComponentId × Slot) → Option String
  | [] => none
  | (cid, _) :: rest =>
    let cn := getComponentName s cid
    let isBevy :=
      match cn.name with
      | some n => bevyCrates.any (fun cr => strStartsWith n (cr ++ "::"))
      | none => false
    match cn.short_name with
    | some sh =>
      if sh ≠ "" ∧ isBevy = false then some sh else firstNonBevyShortName s rest
    | none => firstNonBevyShortName s rest

/-- JavaScript code-unit lexicographic string order (default `Array.sort`
comparison). -/
def charListLe : List Char → List Char → Bool
  | [], _ => true
  | _ :: _, [] => false
  | a :: as, b :: bs => if a = b then charListLe as bs else decide (a < b)

/-- Insertion into a list sorted by decimal-string order of the ids. -/
def insertByIdString (x : ComponentId) : List ComponentId → List ComponentId
  | [] => [x]
  | y :: ys =>
    if charListLe (natStr x).data (natStr y).data then x :: y :: ys
    else y :: insertByIdString x ys

/-- `Array.from(components.keys()).sort()`: JS default sort compares the ids
as strings. -/
def sortByIdString (l : List ComponentId) : List ComponentId :=
  l.foldr insertByIdString []

/-- Display-name resolution, step 4: first resolvable short name over the
string-sorted ids, skipping the parent and children types. -/
def firstSortedShortName (s : SystemState) : List ComponentId → Option String
  | [] => none
  | cid :: rest =>
    let cn := getComponentName s cid
    match cn.short_name with
    | some sh =>
      if sh ≠ "" ∧ cn.name ≠ some bevyTypes.PARENT ∧ cn.name ≠ some bevyTypes.CHILDREN
      then some sh
      else firstSortedShortName s rest
    | none => firstSortedShortName s rest

/-- `getEntityName`: the display-name resolver's five-stage fallback chain.
(The `console.warn` of the missing-entity branch is not logged here; every
caller inside the reconciler invokes it with the entity present.) -/
def getEntityName (s : SystemState) (id : EntityId) : String :=
  match aget s.entities id with
  | none => "Non existent entity (BUG)"
  | some components =>
    match nameFromNameComponent s components with
    | some n => n
    | none =>
      match commonNameSearch s components COMMON_NAMES with
      | some n => n
      | none =>
        match firstNonBevyShortName s components with
        | some n => n
        | none =>
          match firstSortedShortName s (sortByIdString (components.map Prod.fst)) with
          | some n => n
          | none => "Entity"

/-- `updateEntityName`: cache the resolved display name when truthy. -/
def updateEntityName (s : SystemState) (id : EntityId) : SystemState :=
  let name := getEntityName s id
  if name ≠ "" then { s with entityNames := aset s.entityNames id name } else s

/-- `isComponentValueUnchanged`: the client-side deep-comparison cache.
Returns the skip decision and the updated cache. -/
def isComponentValueUnchanged
    (cache : List (EntityId × List (ComponentId × String)))
    (e : EntityId) (cid : ComponentId) (v : JValue) :
    Bool × List (EntityId × List (ComponentId × String)) :=
  if isNullJ v then (false, cache)
  else
    match aget cache e with
    | none => (false, aset cache e [(cid, jsonStr v)])
    | some ec =>
      match aget ec cid with
      | none => (false, aset cache e (aset ec cid (jsonStr v)))
      | some old =>
        if old = jsonStr v then (true, cache)
        else (false, aset cache e (aset ec cid (jsonStr v)))

/-- The fixed hidden-marker component type names. -/
def hiddenEntityNames : List String := [bevyTypes.OBSERVER, bevyTypes.SYSTEM_ID_MARKER]

/-- `containsHiddenComponent`: does any `changes` entry name a hidden marker
component?  (Only the mutation's `changes` list is consulted.) -/
def containsHiddenComponent (changes : List (ComponentId × Bool × JValue))
    (nameToIdMap : List (String × ComponentId)) : Bool :=
  changes.any (fun c => hiddenEntityNames.any (fun nm => decide (aget nameToIdMap nm = some c.1)))

/-- Accumulator of the tracked-entity `removes` loop: the entity's record, the
child-parent map, and the `shouldUpdateName` flag. -/
structure RemAcc where
  record : EntityRecord
  cpm : List (EntityId × Option JValue)
  flag : Bool

/-- One iteration of the tracked-entity `removes` loop: clear the parent link
when the parent component is named, then disable or delete the slot. -/
def applyRemoveEntry (parentId : Option ComponentId) (e : EntityId)
    (acc : RemAcc) (entry : ComponentId × Bool) : RemAcc :=
  let cpm := if some entry.1 = parentId then aset acc.cpm e none else acc.cpm
  match aget acc.record entry.1 with
  | none => { acc with cpm := cpm }
  | some comp =>
    if entry.2 then
      { acc with cpm := cpm, record := aset acc.record entry.1 ⟨comp.value, true⟩ }
    else
      { acc with cpm := cpm, record := adel acc.record entry.1, flag := true }

/-- Accumulator of the tracked-entity `changes` loop. -/
structure ChAcc where
  record : EntityRecord
  cpm : List (EntityId × Option JValue)
  cache : List (EntityId × List (ComponentId × String))
  flag : Bool
  writes : List (EntityId × ComponentId)

/-- One iteration of the tracked-entity `changes` loop: consult the value
cache, possibly skip; otherwise (re)assign the name flag, write the slot, and
derive the parent link unless a hidden marker is present. -/
def applyChangeEntry (parentId : Option ComponentId) (hidden : Bool) (e : EntityId)
    (acc : ChAcc) (entry : ComponentId × Bool × JValue) : ChAcc :=
  let res := isComponentValueUnchanged acc.cache e entry.1 entry.2.2
  if res.1 then { acc with cache := res.2 }
  else
    { record := aset acc.record entry.1 ⟨entry.2.2, entry.2.1⟩
      cpm :=
        if some entry.1 = parentId ∧ hidden = false
        then aset acc.cpm e (some entry.2.2) else acc.cpm
      cache := res.2
      flag := !(aget acc.record entry.1).isSome
      writes := acc.writes ++ [(e, entry.1)] }

/-- `updateEntity`: apply one entity-scoped mutation to the mirror.  (In the
tracked branch the TS code mutates the looked-up record in place and re-stores
a copy after logging; writing the record back before the log append yields the
same state, since the log step only reads.) -/
def updateEntity (s : SystemState) (e : EntityId) (m : EntityMutation) : SystemState :=
  let parentId := aget s.componentNameToIdMap bevyTypes.PARENT
  match m with
  | .remove =>
    { s with
      entities := adel s.entities e
      childParentMap := adel s.childParentMap e
      entityNames := adel s.entityNames e
      componentValueCache := adel s.componentValueCache e }
  | .unknown => { s with log := s.log ++ [.unknownMutation e] }
  | .change changes removes =>
    match aget s.entities e with
    | some r0 =>
      let a1 := removes.foldl (applyRemoveEntry parentId e) ⟨r0, s.childParentMap, false⟩
      let hidden := containsHiddenComponent changes s.componentNameToIdMap
      let a2 := changes.foldl (applyChangeEntry parentId hidden e)
        ⟨a1.record, a1.cpm, s.componentValueCache, a1.flag, s.writes⟩
      let s1 :=
        { s with
          entities := aset s.entities e a2.record
          childParentMap := a2.cpm
          componentValueCache := a2.cache
          writes := a2.writes }
      let s2 :=
        if changes.isEmpty then s1
        else { s1 with log := s1.log ++ [.changedComponents e] }
      if a2.flag then updateEntityName s2 e else s2
    | none =>
      let s1 :=
        if removes.isEmpty then s
        else { s with log := s.log ++ [.removesOnUntracked e] }
      let r := changes.foldl (fun rr c => aset rr c.1 ⟨c.2.2, c.2.1⟩) ([] : EntityRecord)
      let s2 :=
        { s1 with
          entities := aset s1.entities e r
          writes := s1.writes ++ changes.map (fun c => (e, c.1)) }
      let s3 :=
        if containsHiddenComponent changes s.componentNameToIdMap then s2
        else
          match changes.find? (fun c => decide (some c.1 = parentId)) with
          | some c =>
            { s2 with childParentMap := aset s2.childParentMap e (if c.2.1 then none else some c.2.2) }
          | none => { s2 with childParentMap := aset s2.childParentMap e none }
      updateEntityName s3 e

/-- Dispatch of one stream event by its `kind` (the `process_update` loop
body); `schedules` events are accepted and ignored (`updateSchedules`). -/
def applyEvent (s : SystemState) (ev : StreamEvent) : SystemState :=
  match ev with
  | .typeRegistry types => setRegistry s types
  | .component comps => setComponents s comps
  | .entity e m => updateEntity s e m
  | .schedules => s
  | .unknown => { s with log := s.log ++ [.unknownEventKind] }

/-- `process_update`: apply an ordered batch of stream events, first to last. -/
def process_update (s : SystemState) : List StreamEvent → SystemState
  | [] => s
  | item :: rest => process_update (applyEvent s item) rest

/-- Combined lookup `entities[e][c]`. -/
def entGet (s : SystemState) (e : EntityId) (c : ComponentId) : Option Slot :=
  match aget s.entities e with
  | none => none
  | some r => aget r c

/-- Lookup `cache[e][c]` in a raw two-level cache. -/
def cacheLookup (cache : List (EntityId × List (ComponentId × String)))
    (e : EntityId) (c : ComponentId) : Option String :=
  match aget cache e with
  | none => none
  | some ec => aget ec c

/-- Combined lookup `componentValueCache[e][c]`. -/
def cacheGet (s : SystemState) (e : EntityId) (c : ComponentId) : Option String :=
  cacheLookup s.componentValueCache e c

/-- Number of instrumented writes to the component slot `entities[e][c]`. -/
def writeCount (s : SystemState) (e : EntityId) (c : ComponentId) : Nat :=
  (s.writes.filter (fun p => decide (p = (e, c)))).length

/-- The non-ghost fields of two states agree (the Mirror and Catalog proper,
ignoring the diagnostics log). -/
def mirrorEq (a b : SystemState) : Prop :=
  a.components = b.components ∧ a.registry = b.registry ∧
  a.componentNameToIdMap = b.componentNameToIdMap ∧ a.entities = b.entities ∧
  a.childParentMap = b.childParentMap ∧ a.entityNames = b.entityNames ∧
  a.componentValueCache = b.componentValueCache ∧ a.writes = b.writes

/-- The §3 invariant: an entity present in `entities` is present in
`entityNames`. -/
def namesInv (s : SystemState) : Prop :=
  ∀ e : EntityId, (aget s.entities e).isSome = true → (aget s.entityNames e).isSome = true

/-- A common-names entry that only ever produces non-empty labels (true of
every entry of `COMMON_NAMES`). -/
def goodEntry : CommonEntry → Prop
  | .label l => l ≠ ""
  | .fmt f => ∀ v res, f v = some res → res ≠ ""

/-! ### Association-list lemmas -/

theorem aget_aset {α β : Type} [DecidableEq α] (l : List (α × β)) (k : α) (v : β) (k' : α) :
    aget (aset l k v) k' = if k = k' then some v else aget l k' := by
  induction l with
  | nil => simp [aset, aget]
  | cons p t ih =>
    by_cases hk : p.1 = k
    · by_cases h : k = k'
      · simp [aset, aget, hk, h]
      · have hne : ¬ p.1 = k' := by rw [hk]; exact h
        simp [aset, aget, hk, h, hne]
    · by_cases h : p.1 = k'
      · have h1 : ¬ k = k' := fun hc => hk (by rw [h, hc])
        have h2 : ¬ k' = k := fun hc => h1 hc.symm
        simp [aset, aget, hk, h, h1, h2]
      · simp [aset, aget, hk, h, ih]

theorem aget_adel {α β : Type} [DecidableEq α] (l : List (α × β)) (k : α) (k' : α) :
    aget (adel l k) k' = if k = k' then none else aget l k' := by
  induction l with
  | nil => simp [adel, aget]
  | cons p t ih =>
    by_cases hk : p.1 = k
    · by_cases h : k = k'
      · simpa [adel, List.filter, aget, hk, h] using ih
      · have hne : ¬ p.1 = k' := by rw [hk]; exact h
        simpa [adel, List.filter, aget, hk, h, hne] using ih
    · by_cases h : p.1 = k'
      · have h1 : ¬ k = k' := fun hc => hk (by rw [h, hc])
        have h2 : ¬ k' = k := fun hc => h1 hc.symm
        simp [adel, List.filter, aget, hk, h, h1, h2]
      · simpa [adel, List.filter, aget, hk, h] using ih

theorem updateEntityName_childParentMap (s : SystemState) (id : EntityId) :
    (updateEntityName s id).childParentMap = s.childParentMap := by
  by_cases h : getEntityName s id ≠ "" <;> simp [updateEntityName, h]

theorem updateEntityName_entities (s : SystemState) (id : EntityId) :
    (updateEntityName s id).entities = s.entities := by
  by_cases h : getEntityName s id ≠ "" <;> simp [updateEntityName, h]

theorem updateEntityName_cache (s : SystemState) (id : EntityId) :
    (updateEntityName s id).componentValueCache = s.componentValueCache := by
  by_cases h : getEntityName s id ≠ "" <;> simp [updateEntityName, h]

theorem updateEntityName_writes (s : SystemState) (id : EntityId) :
    (updateEntityName s id).writes = s.writes := by
  by_cases h : getEntityName s id ≠ "" <;> simp [updateEntityName, h]

/-- The `removes` loop touches `childParentMap` exactly by clearing the entry
of `e` at each parent-component entry, independently of the record and flag. -/
theorem applyRemoveEntry_cpm (parentId : Option ComponentId) (e : EntityId)
    (acc : RemAcc) (entry : ComponentId × Bool) :
    (applyRemoveEntry parentId e acc entry).cpm
      = if some entry.1 = parentId then aset acc.cpm e none else acc.cpm := by
  cases h : aget acc.record entry.1 <;>
    by_cases h2 : entry.2 <;> simp [applyRemoveEntry, h, h2]

theorem remFold_cpm (parentId : Option ComponentId) (e : EntityId)
    (removes : List (ComponentId × Bool)) (acc : RemAcc) :
    (removes.foldl (applyRemoveEntry parentId e) acc).cpm
      = removes.foldl
          (fun m p => if some p.1 = parentId then aset m e none else m) acc.cpm := by
  induction removes generalizing acc with
  | nil => rfl
  | cons r rest ih =>
    simp only [List.foldl, ih, applyRemoveEntry_cpm]

/-- A `removes` entry that does not name the parent component leaves
`childParentMap` unchanged. -/
theorem remFold_cpm_of_no_parent (parentId : Option ComponentId) (e : EntityId)
    (removes : List (ComponentId × Bool)) (acc : RemAcc)
    (h : ∀ p ∈ removes, ¬ some p.1 = parentId) :
    (removes.foldl (applyRemoveEntry parentId e) acc).cpm = acc.cpm := by
  rw [remFold_cpm]
  induction removes generalizing acc with
  | nil => rfl
  | cons r rest ih =>
    have hr : ¬ some r.1 = parentId := h r (List.mem_cons_self r rest)
    simp only [List.foldl, hr, if_false]
    exact ih acc (fun p hp => h p (List.mem_cons_of_mem r hp))

/-- A `changes` entry that does not name the parent component leaves
`childParentMap` unchanged. -/
theorem applyChangeEntry_cpm_of_ne (parentId : Option ComponentId) (hidden : Bool)
    (e : EntityId) (acc : ChAcc) (entry : ComponentId × Bool × JValue)
    (h : ¬ some entry.1 = parentId) :
    (applyChangeEntry parentId hidden e acc entry).cpm = acc.cpm := by
  by_cases hs : (isComponentValueUnchanged acc.cache e entry.1 entry.2.2).1 <;>
    simp [applyChangeEntry, hs, h]

/-- Under a hidden marker, no `changes` entry ever touches `childParentMap`. -/
theorem applyChangeEntry_cpm_of_hidden (parentId : Option ComponentId)
    (e : EntityId) (acc : ChAcc) (entry : ComponentId × Bool × JValue) :
    (applyChangeEntry parentId true e acc entry).cpm = acc.cpm := by
  by_cases hs : (isComponentValueUnchanged acc.cache e entry.1 entry.2.2).1 <;>
    simp [applyChangeEntry, hs]

theorem chFold_cpm_of_no_parent (parentId : Option ComponentId) (hidden : Bool)
    (e : EntityId) (changes : List (ComponentId × Bool × JValue)) (acc : ChAcc)
    (h : ∀ c ∈ changes, ¬ some c.1 = parentId) :
    (changes.foldl (applyChangeEntry parentId hidden e) acc).cpm = acc.cpm := by
  induction changes generalizing acc with
  | nil => rfl
  | cons c rest ih =>
    have hc : ¬ some c.1 = parentId := h c (List.mem_cons_self c rest)
    simp only [List.foldl]
    rw [ih (applyChangeEntry parentId hidden e acc c)
        (fun p hp => h p (List.mem_cons_of_mem c hp)),
      applyChangeEntry_cpm_of_ne parentId hidden e acc c hc]

theorem chFold_cpm_of_hidden (parentId : Option ComponentId) (e : EntityId)
    (changes : List (ComponentId × Bool × JValue)) (acc : ChAcc) :
    (changes.foldl (applyChangeEntry parentId true e) acc).cpm = acc.cpm := by
  induction changes generalizing acc with
  | nil => rfl
  | cons c rest ih =>
    simp only [List.foldl]
    rw [ih, applyChangeEntry_cpm_of_hidden]

/-! ### C3: a `remove` mutation purges the entity from all four maps -/

/-- C3: after processing a `remove` mutation for `e`, none of `entities`,
`childParentMap`, `entityNames`, `componentValueCache` contain the key `e`;
the four deletions are performed by the one transition `updateEntity`, so no
intermediate state is observable. -/
theorem C3_remove_purges_all_maps (s : SystemState) (e : EntityId) :
    aget (updateEntity s e .remove).entities e = none ∧
    aget (updateEntity s e .remove).childParentMap e = none ∧
    aget (updateEntity s e .remove).entityNames e = none ∧
    aget (updateEntity s e .remove).componentValueCache e = none := by
  simp [updateEntity, aget_adel]

/-- `process_update` is the left fold of single-event application. -/
theorem process_update_eq_foldl (evs : List StreamEvent) (s : SystemState) :
    process_update s evs = evs.foldl applyEvent s := by
  induction evs generalizing s with
  | nil => rfl
  | cons i rest ih => simp [process_update, List.foldl, ih]

/-! ### C9: totality of the batch loop and locality of unknown-kind handling -/

/-- C9: `process_update` (a total function — it cannot throw) applies the
events of a batch in array order (it is the left fold of `applyEvent`); an
event of unknown kind, and an entity event of unknown mutation kind, each
leave every Mirror and Catalog field unchanged, append one diagnostic to the
log, and processing continues with the remaining events of the batch. -/
theorem C9_unknown_events_are_local_noops (s : SystemState) (e : EntityId)
    (rest : List StreamEvent) :
    (∀ evs : List StreamEvent, process_update s evs = evs.foldl applyEvent s)
    ∧ process_update s (.unknown :: rest) = process_update (applyEvent s .unknown) rest
    ∧ mirrorEq (applyEvent s .unknown) s
    ∧ (applyEvent s .unknown).log = s.log ++ [.unknownEventKind]
    ∧ process_update s (.entity e .unknown :: rest)
        = process_update (applyEvent s (.entity e .unknown)) rest
    ∧ mirrorEq (applyEvent s (.entity e .unknown)) s
    ∧ (applyEvent s (.entity e .unknown)).log = s.log ++ [.unknownMutation e] := by
  refine ⟨fun evs => process_update_eq_foldl evs s, rfl, ?_, rfl, rfl, ?_, ?_⟩ <;>
    simp [applyEvent, updateEntity, mirrorEq]

/-! ### C4: when the childParentMap is touched -/

/-- C4 as stated is false: processing a `change` mutation with no
parent-component entry at all (here: an empty `changes` list for an unseen
entity) creates a `childParentMap` entry for the entity, set to null. -/
theorem C4_counterexample :
    aget initState.childParentMap 5 = none
    ∧ aget (process_update initState
        [.entity 5 (.change [] [])]).childParentMap 5 = some none :=
  ⟨rfl, rfl⟩

/-- C4 amended: for an already-tracked entity, a `change` mutation that names
the parent component in none of its `removes` and `changes` entries leaves
`childParentMap` unchanged; for an untracked entity, however, a `change`
mutation without hidden marker and without parent-component entry still
creates the entity's `childParentMap` entry, set to null. -/
theorem C4_amended_parent_map_locality (s : SystemState) (e : EntityId)
    (changes : List (ComponentId × Bool × JValue)) (removes : List (ComponentId × Bool)) :
    ((aget s.entities e).isSome = true →
      (∀ p ∈ removes, ¬ some p.1 = aget s.componentNameToIdMap bevyTypes.PARENT) →
      (∀ c ∈ changes, ¬ some c.1 = aget s.componentNameToIdMap bevyTypes.PARENT) →
      (updateEntity s e (.change changes removes)).childParentMap = s.childParentMap)
    ∧ (aget s.entities e = none →
      containsHiddenComponent changes s.componentNameToIdMap = false →
      (∀ c ∈ changes, ¬ some c.1 = aget s.componentNameToIdMap bevyTypes.PARENT) →
      (updateEntity s e (.change changes removes)).childParentMap
        = aset s.childParentMap e none) := by
  constructor
  · intro ht hrem hch
    obtain ⟨r0, hr0⟩ := Option.isSome_iff_exists.mp ht
    simp only [updateEntity, hr0, updateEntityName_childParentMap,
      apply_ite SystemState.childParentMap, ite_self]
    rw [chFold_cpm_of_no_parent _ _ _ _ _ hch]
    exact remFold_cpm_of_no_parent _ _ _ _ hrem
  · intro hn hh hch
    have hfind : changes.find?
        (fun c => decide (some c.1 = aget s.componentNameToIdMap bevyTypes.PARENT)) = none :=
      List.find?_eq_none.mpr (fun x hx => by simpa using hch x hx)
    simp only [updateEntity, hn, hh, hfind, updateEntityName_childParentMap,
      apply_ite SystemState.childParentMap, ite_self, Bool.false_eq_true, if_false]

/-! ### C5: hidden markers and parent-linkage derivation -/

/-- C5 as stated is false: for a tracked entity, a mutation that carries a
hidden marker in its `changes` and removes the parent component still creates
(or overwrites) the entity's `childParentMap` entry, clearing it to null —
the hidden-marker guard is only applied to the `changes` loop. -/
theorem C5_counterexample :
    containsHiddenComponent [(2, false, JValue.num 1)]
      (process_update initState
        [.component [⟨1, bevyTypes.PARENT⟩, ⟨2, bevyTypes.OBSERVER⟩],
         .entity 9 (.change [(2, false, .num 0), (3, false, .num 5)] [])]).componentNameToIdMap
      = true
    ∧ (aget (process_update initState
        [.component [⟨1, bevyTypes.PARENT⟩, ⟨2, bevyTypes.OBSERVER⟩],
         .entity 9 (.change [(2, false, .num 0), (3, false, .num 5)] [])]).entities 9).isSome
      = true
    ∧ aget (process_update initState
        [.component [⟨1, bevyTypes.PARENT⟩, ⟨2, bevyTypes.OBSERVER⟩],
         .entity 9 (.change [(2, false, .num 0), (3, false, .num 5)] [])]).childParentMap 9
      = none
    ∧ aget (process_update initState
        [.component [⟨1, bevyTypes.PARENT⟩, ⟨2, bevyTypes.OBSERVER⟩],
         .entity 9 (.change [(2, false, .num 0), (3, false, .num 5)] []),
         .entity 9 (.change [(2, false, .num 1)] [(1, false)])]).childParentMap 9
      = some none :=
  ⟨rfl, rfl, rfl, rfl⟩

/-- C5 amended: for a tracked entity, a mutation carrying a hidden marker in
its `changes` performs no parent-linkage derivation from the `changes` loop;
its effect on `childParentMap` is exactly the `removes` loop's clearing of the
entity's entry at each parent-component `removes` entry. -/
theorem C5_amended_hidden_skips_changes_derivation (s : SystemState) (e : EntityId)
    (changes : List (ComponentId × Bool × JValue)) (removes : List (ComponentId × Bool))
    (ht : (aget s.entities e).isSome = true)
    (hh : containsHiddenComponent changes s.componentNameToIdMap = true) :
    (updateEntity s e (.change changes removes)).childParentMap
      = removes.foldl
          (fun m p =>
            if some p.1 = aget s.componentNameToIdMap bevyTypes.PARENT
            then aset m e none else m)
          s.childParentMap := by
  obtain ⟨r0, hr0⟩ := Option.isSome_iff_exists.mp ht
  simp only [updateEntity, hr0, hh, updateEntityName_childParentMap,
    apply_ite SystemState.childParentMap, ite_self]
  rw [chFold_cpm_of_hidden, remFold_cpm]

/-! ### Value-cache lemmas -/

theorem aset_self {α β : Type} [DecidableEq α] (l : List (α × β)) (k : α) (v : β)
    (h : aget l k = some v) : aset l k v = l := by
  induction l with
  | nil => simp [aget] at h
  | cons p t ih =>
    obtain ⟨pk, pv⟩ := p
    by_cases hk : pk = k
    · simp only [aget, hk, if_pos, Option.some.injEq] at h
      simp [aset, hk, ← h]
    · simp only [aget, hk, if_neg, not_false_iff] at h
      simp [aset, hk, ih h]

/-- The cache consultation does not skip when the value is null or when the
cached serialization differs (or is absent). -/
theorem icvu_not_skipped (cache : List (EntityId × List (ComponentId × String)))
    (e : EntityId) (c : ComponentId) (v : JValue)
    (h : v = JValue.null ∨ ¬ cacheLookup cache e c = some (jsonStr v)) :
    (isComponentValueUnchanged cache e c v).1 = false := by
  rcases h with h | h
  · subst h; simp [isComponentValueUnchanged, isNullJ]
  · by_cases hv : isNullJ v
    · simp [isComponentValueUnchanged, hv]
    · cases hce : aget cache e with
      | none => simp [isComponentValueUnchanged, hv, hce]
      | some ec =>
        cases hcc : aget ec c with
        | none => simp [isComponentValueUnchanged, hv, hce, hcc]
        | some old =>
          have hne : ¬ old = jsonStr v := by
            intro he
            exact h (by simp [cacheLookup, hce, hcc, he])
          simp [isComponentValueUnchanged, hv, hce, hcc, hne]

/-- The cache consultation skips exactly the cache-hit case, leaving the cache
unchanged. -/
theorem icvu_skipped (cache : List (EntityId × List (ComponentId × String)))
    (e : EntityId) (c : ComponentId) (v : JValue)
    (hv : isNullJ v = false)
    (h : cacheLookup cache e c = some (jsonStr v)) :
    isComponentValueUnchanged cache e c v = (true, cache) := by
  cases hce : aget cache e with
  | none => simp [cacheLookup, hce] at h
  | some ec =>
    cases hcc : aget ec c with
    | none => simp [cacheLookup, hce, hcc] at h
    | some old =>
      have : old = jsonStr v := by simpa [cacheLookup, hce, hcc] using h
      simp [isComponentValueUnchanged, hv, hce, hcc, this]

/-- After consulting the cache for a non-null value, the cache holds that
value's serialization at `(e, c)`. -/
theorem icvu_cache_after (cache : List (EntityId × List (ComponentId × String)))
    (e : EntityId) (c : ComponentId) (v : JValue)
    (hv : isNullJ v = false) :
    cacheLookup (isComponentValueUnchanged cache e c v).2 e c = some (jsonStr v) := by
  cases hce : aget cache e with
  | none =>
    simp [isComponentValueUnchanged, hv, hce, cacheLookup, aget_aset, aget]
  | some ec =>
    cases hcc : aget ec c with
    | none =>
      simp [isComponentValueUnchanged, hv, hce, hcc, cacheLookup, aget_aset]
    | some old =>
      by_cases he : old = jsonStr v <;>
        simp [isComponentValueUnchanged, hv, hce, hcc, he, cacheLookup, aget_aset]

/-! ### C10: a cache hit skips a `changes` entry in its entirety -/

/-- C10: for a tracked entity whose cache holds the incoming value's exact
serialization for `(e, c)` (necessarily of a non-null value: the cache is
written only for non-null values, so the hypothesis `jsonStr v ≠ "null"` is
implied by reachability), the `changes` entry is skipped in its entirety even
when its `disabled` flag differs from the slot's: the loop-body iteration is
the identity on the record, the child-parent map, the cache, the name flag and
the write log; lifted to a whole mutation with that entry as its only
`changes` entry and no `removes`, the state is unchanged except for the
`changedComponents` diagnostic. -/
theorem C10_cache_hit_entry_is_identity (s : SystemState) (parentId : Option ComponentId)
    (hidden : Bool) (e : EntityId) (acc : ChAcc) (c : ComponentId) (dis : Bool) (v : JValue)
    (hcc : cacheLookup acc.cache e c = some (jsonStr v))
    (hs : cacheGet s e c = some (jsonStr v))
    (hnn : jsonStr v ≠ "null")
    (ht : (aget s.entities e).isSome = true) :
    applyChangeEntry parentId hidden e acc (c, dis, v) = acc
    ∧ updateEntity s e (.change [(c, dis, v)] [])
        = { s with log := s.log ++ [.changedComponents e] } := by
  have hv : isNullJ v = false := by
    cases v <;> first
      | rfl
      | exact absurd rfl hnn
  constructor
  · simp [applyChangeEntry, icvu_skipped acc.cache e c v hv hcc]
  · obtain ⟨r0, hr0⟩ := Option.isSome_iff_exists.mp ht
    have hskip := icvu_skipped s.componentValueCache e c v hv hs
    simp [updateEntity, hr0, List.foldl, applyChangeEntry, hskip,
      aset_self s.entities e r0 hr0]

/-! ### C1: removes-then-changes ordering within one mutation -/

/-- C1 as stated is false: when the value cache already holds the re-added
value's serialization for `(e, c)` (here: after two prior applications of the
same change), a mutation removing and re-adding component `c` with that value
ends with `c` absent from the record — the remove deletes the slot and the
re-add is suppressed by the cache. -/
theorem C1_counterexample :
    entGet (process_update initState
      [.entity 1 (.change [(7, false, .num 42)] []),
       .entity 1 (.change [(7, false, .num 42)] [])]) 1 7
      = some ⟨.num 42, false⟩
    ∧ entGet (process_update initState
      [.entity 1 (.change [(7, false, .num 42)] []),
       .entity 1 (.change [(7, false, .num 42)] []),
       .entity 1 (.change [(7, false, .num 42)] [(7, false)])]) 1 7
      = none :=
  ⟨rfl, rfl⟩

/-- C1 amended: for a tracked entity whose record contains `c`, a mutation
with `removes = [(c, false)]` and `changes = [(c, disabled, v)]` applies the
remove before the change, so that — provided the change entry is not
suppressed by the value cache (the cached serialization for `(e, c)` differs
from `v`'s, or `v` is null) — the record afterwards contains `c` with value
`v` and flag `disabled`. -/
theorem C1_amended_removes_then_changes (s : SystemState) (e : EntityId)
    (c : ComponentId) (dis : Bool) (v : JValue)
    (ht : (entGet s e c).isSome = true)
    (hsk : v = JValue.null ∨ ¬ cacheGet s e c = some (jsonStr v)) :
    entGet (updateEntity s e (.change [(c, dis, v)] [(c, false)])) e c
      = some ⟨v, dis⟩ := by
  have h1 : ∃ r0, aget s.entities e = some r0 ∧ (aget r0 c).isSome = true := by
    unfold entGet at ht
    cases hr : aget s.entities e with
    | none => rw [hr] at ht; simp at ht
    | some r => exact ⟨r, rfl, by rw [hr] at ht; exact ht⟩
  obtain ⟨r0, hr0, hslot⟩ := h1
  obtain ⟨slot, hslot2⟩ := Option.isSome_iff_exists.mp hslot
  have hns := icvu_not_skipped s.componentValueCache e c v hsk
  simp [updateEntity, hr0, List.foldl, applyRemoveEntry, hslot2, applyChangeEntry,
    hns, entGet, apply_ite SystemState.entities, updateEntityName_entities,
    ite_self, aget_aset]

/-! ### C2: idempotence of repeated identical changes under the value cache -/

/-- C2 as stated is false: for an entity the first `change` event creates, the
creation path does not populate the value cache, so applying the identical
change twice yields two instrumented writes to the slot, not exactly one. -/
theorem C2_counterexample :
    writeCount (process_update initState
      [.entity 1 (.change [(7, false, .num 42)] []),
       .entity 1 (.change [(7, false, .num 42)] [])]) 1 7 = 2 :=
  rfl

/-- C2 amended: for an entity that is already tracked, with a non-null value
whose serialization is not already cached for `(e, c)`, applying the identical
change twice performs exactly one instrumented write to the slot `(e, c)` —
the first application writes and populates the cache, the second is
suppressed. -/
theorem C2_amended_second_application_suppressed (s : SystemState) (e : EntityId)
    (c : ComponentId) (dis : Bool) (v : JValue)
    (ht : (aget s.entities e).isSome = true)
    (hnull : v ≠ JValue.null)
    (hsk : ¬ cacheGet s e c = some (jsonStr v)) :
    writeCount
      (updateEntity (updateEntity s e (.change [(c, dis, v)] []))
        e (.change [(c, dis, v)] []))
      e c
      = writeCount s e c + 1 := by
  obtain ⟨r0, hr0⟩ := Option.isSome_iff_exists.mp ht
  have hv : isNullJ v = false := by
    cases v <;> first | rfl | exact absurd rfl hnull
  have hns := icvu_not_skipped s.componentValueCache e c v (Or.inr hsk)
  have hfe : (updateEntity s e (.change [(c, dis, v)] [])).entities
      = aset s.entities e (aset r0 c ⟨v, dis⟩) := by
    simp [updateEntity, hr0, List.foldl, applyChangeEntry, hns,
      apply_ite SystemState.entities, updateEntityName_entities, ite_self]
  have hfc : (updateEntity s e (.change [(c, dis, v)] [])).componentValueCache
      = (isComponentValueUnchanged s.componentValueCache e c v).2 := by
    simp [updateEntity, hr0, List.foldl, applyChangeEntry, hns,
      apply_ite SystemState.componentValueCache, updateEntityName_cache, ite_self]
  have hfw : (updateEntity s e (.change [(c, dis, v)] [])).writes
      = s.writes ++ [(e, c)] := by
    simp [updateEntity, hr0, List.foldl, applyChangeEntry, hns,
      apply_ite SystemState.writes, updateEntityName_writes, ite_self]
  have hr1 : aget (updateEntity s e (.change [(c, dis, v)] [])).entities e
      = some (aset r0 c ⟨v, dis⟩) := by
    rw [hfe]; simp [aget_aset]
  have hc1 : cacheLookup
      (updateEntity s e (.change [(c, dis, v)] [])).componentValueCache e c
      = some (jsonStr v) := by
    rw [hfc]; exact icvu_cache_after s.componentValueCache e c v hv
  have hskip := icvu_skipped _ e c v hv hc1
  generalize hS : updateEntity s e (.change [(c, dis, v)] []) = s1 at hr1 hskip hfw
  have hw2 : (updateEntity s1 e (.change [(c, dis, v)] [])).writes = s1.writes := by
    simp [updateEntity, hr1, List.foldl, applyChangeEntry, hskip,
      apply_ite SystemState.writes, updateEntityName_writes, ite_self]
  rw [writeCount, hw2, hfw]
  simp [writeCount, List.filter_append]

/-! ### Non-emptiness of resolved display names -/

theorem mkStr_ne_empty (l : List Char) (h : l ≠ []) : String.mk l ≠ "" := by
  intro he
  apply h
  have := congrArg String.data he
  simpa using this

theorem natDigits_ne_nil (f n : Nat) : natDigits (f + 1) n ≠ [] := by
  by_cases h : n < 10 <;> simp [natDigits, h]

theorem natStr_ne_empty (n : Nat) : natStr n ≠ "" :=
  mkStr_ne_empty _ (natDigits_ne_nil n n)

theorem intStr_ne_empty (i : Int) : intStr i ≠ "" := by
  cases i with
  | ofNat n => exact natStr_ne_empty n
  | negSucc m => exact mkStr_ne_empty _ (by simp)

theorem jsonStr_ne_empty (v : JValue) : jsonStr v ≠ "" := by
  cases v with
  | null => decide
  | bool b => cases b <;> decide
  | num n => exact intStr_ne_empty n
  | str s =>
    intro h
    have := congrArg String.data h
    simp [jsonStr, jsonQuote] at this
  | arr xs =>
    intro h
    have := congrArg String.data h
    simp [jsonStr] at this
  | obj fs =>
    intro h
    have := congrArg String.data h
    simp [jsonStr] at this

theorem valueToNameString_ne_empty (v : JValue) (h : truthy v = true) :
    valueToNameString v ≠ "" := by
  cases v with
  | null => simp [truthy] at h
  | bool b =>
    cases b
    · simp [truthy] at h
    · simpa [valueToNameString] using jsonStr_ne_empty (.bool true)
  | num n => simpa [valueToNameString] using jsonStr_ne_empty (.num n)
  | str s => simpa [valueToNameString] using (by simpa [truthy] using h : s ≠ "")
  | arr xs => simpa [valueToNameString] using jsonStr_ne_empty (.arr xs)
  | obj fs => simpa [valueToNameString] using jsonStr_ne_empty (.obj fs)

theorem nameFromNameComponent_ne_empty (s : SystemState) (r : EntityRecord) (n : String)
    (h : nameFromNameComponent s r = some n) : n ≠ "" := by
  unfold nameFromNameComponent at h
  cases hm : aget s.componentNameToIdMap bevyTypes.NAME with
  | none => simp [hm] at h
  | some nc =>
    simp only [hm] at h
    cases hr : aget r nc with
    | none => simp [hr] at h
    | some slot =>
      simp only [hr] at h
      by_cases ht : truthy slot.value = true
      · rw [if_pos ht] at h
        injection h with h2
        subst h2
        exact valueToNameString_ne_empty slot.value ht
      · rw [if_neg ht] at h
        exact absurd h (by simp)

theorem COMMON_NAMES_good : ∀ p ∈ COMMON_NAMES, goodEntry p.2 := by
  intro p hp
  simp only [COMMON_NAMES, List.mem_cons, List.not_mem_nil, or_false] at hp
  rcases hp with h | h | h <;> subst h
  · intro v res hres
    cases v with
    | str s2 =>
      obtain rfl : "Window " ++ s2 = res := by simpa using hres
      intro he
      have := congrArg String.data he
      simp at this
    | null => simp at hres
    | bool b => simp at hres
    | num n => simp at hres
    | arr xs => simp at hres
    | obj fs => simp at hres
  · exact (by decide : ("Camera3d" : String) ≠ "")
  · exact (by decide : ("PointLight" : String) ≠ "")

theorem commonNameSearch_ne_empty (s : SystemState) (r : EntityRecord) :
    ∀ (l : List (String × CommonEntry)), (∀ p ∈ l, goodEntry p.2) →
      ∀ n, commonNameSearch s r l = some n → n ≠ "" := by
  intro l
  induction l with
  | nil => intro _ n h; simp [commonNameSearch] at h
  | cons p rest ih =>
    intro hg n h
    obtain ⟨nm, entry⟩ := p
    have hgood : goodEntry entry := hg (nm, entry) (List.mem_cons_self _ _)
    have hrest : ∀ q ∈ rest, goodEntry q.2 :=
      fun q hq => hg q (List.mem_cons_of_mem _ hq)
    unfold commonNameSearch at h
    cases hm : aget s.componentNameToIdMap nm with
    | none => simp only [hm] at h; exact ih hrest n h
    | some cid =>
      simp only [hm] at h
      cases hr : aget r cid with
      | none => simp only [hr] at h; exact ih hrest n h
      | some slot =>
        simp only [hr] at h
        cases entry with
        | label l2 =>
          replace h : some l2 = some n := h
          injection h with h2
          subst h2
          exact hgood
        | fmt f2 =>
          replace h : f2 slot.value = some n := h
          exact hgood slot.value n h

theorem firstNonBevyShortName_ne_empty (s : SystemState) :
    ∀ (l : List (ComponentId × Slot)) (n : String),
      firstNonBevyShortName s l = some n → n ≠ "" := by
  intro l
  induction l with
  | nil => intro n h; simp [firstNonBevyShortName] at h
  | cons p rest ih =>
    intro n h
    obtain ⟨cid, slot⟩ := p
    simp only [firstNonBevyShortName] at h
    cases hsn : (getComponentName s cid).short_name with
    | none => simp only [hsn] at h; exact ih n h
    | some sh =>
      simp only [hsn] at h
      split at h
      · rename_i hcond
        injection h with h2
        subst h2
        exact hcond.1
      · exact ih n h

theorem firstSortedShortName_ne_empty (s : SystemState) :
    ∀ (l : List ComponentId) (n : String),
      firstSortedShortName s l = some n → n ≠ "" := by
  intro l
  induction l with
  | nil => intro n h; simp [firstSortedShortName] at h
  | cons cid rest ih =>
    intro n h
    simp only [firstSortedShortName] at h
    cases hsn : (getComponentName s cid).short_name with
    | none => simp only [hsn] at h; exact ih n h
    | some sh =>
      simp only [hsn] at h
      split at h
      · rename_i hcond
        injection h with h2
        subst h2
        exact hcond.1
      · exact ih n h

theorem getEntityName_eq_of_some (s : SystemState) (id : EntityId) (comps : EntityRecord)
    (he : aget s.entities id = some comps) :
    getEntityName s id =
      match nameFromNameComponent s comps with
      | some n => n
      | none =>
        match commonNameSearch s comps COMMON_NAMES with
        | some n => n
        | none =>
          match firstNonBevyShortName s comps with
          | some n => n
          | none =>
            match firstSortedShortName s (sortByIdString (comps.map Prod.fst)) with
            | some n => n
            | none => "Entity" := by
  unfold getEntityName
  rw [he]

/-- The display-name resolver never returns the empty string: every stage
either returns a guarded non-empty candidate or falls through to `"Entity"`. -/
theorem getEntityName_ne_empty (s : SystemState) (id : EntityId) :
    getEntityName s id ≠ "" := by
  cases he : aget s.entities id with
  | none =>
    unfold getEntityName
    rw [he]
    show ("Non existent entity (BUG)" : String) ≠ ""
    decide
  | some comps =>
    rw [getEntityName_eq_of_some s id comps he]
    cases h1 : nameFromNameComponent s comps with
    | some n => exact nameFromNameComponent_ne_empty s comps n h1
    | none =>
      cases h2 : commonNameSearch s comps COMMON_NAMES with
      | some n => exact commonNameSearch_ne_empty s comps COMMON_NAMES COMMON_NAMES_good n h2
      | none =>
        cases h3 : firstNonBevyShortName s comps with
        | some n => exact firstNonBevyShortName_ne_empty s comps n h3
        | none =>
          cases h4 : firstSortedShortName s (sortByIdString (comps.map Prod.fst)) with
          | some n => exact firstSortedShortName_ne_empty s _ n h4
          | none =>
            show ("Entity" : String) ≠ ""
            decide

/-- Because resolved names are never empty, `updateEntityName` always caches. -/
theorem updateEntityName_sets (s : SystemState) (id : EntityId) :
    (updateEntityName s id).entityNames = aset s.entityNames id (getEntityName s id) := by
  simp [updateEntityName, getEntityName_ne_empty s id]

theorem aget_aset_isSome_of {α β : Type} [DecidableEq α] (l : List (α × β)) (k : α)
    (v : β) (k' : α) (h : (aget l k').isSome = true) :
    (aget (aset l k v) k').isSome = true := by
  rw [aget_aset]
  by_cases hk : k = k' <;> simp [hk, h]

theorem updateEntityName_names_mono (s : SystemState) (id : EntityId) (k : EntityId)
    (h : (aget s.entityNames k).isSome = true) :
    (aget (updateEntityName s id).entityNames k).isSome = true := by
  rw [updateEntityName_sets]
  exact aget_aset_isSome_of _ _ _ _ h

theorem updateEntityName_names_self (s : SystemState) (id : EntityId) :
    (aget (updateEntityName s id).entityNames id).isSome = true := by
  rw [updateEntityName_sets, aget_aset]
  simp

/-! ### C7: entities present in `entities` always have cached names -/

/-- Applying a `change` mutation for `e` leaves every other entity's record
untouched, whatever branch is taken. -/
theorem updateEntity_change_entities_ne (s : SystemState) (e : EntityId)
    (changes : List (ComponentId × Bool × JValue)) (removes : List (ComponentId × Bool))
    (k : EntityId) (hk : ¬ e = k) :
    aget (updateEntity s e (.change changes removes)).entities k
      = aget s.entities k := by
  cases hr : aget s.entities e with
  | some r0 =>
    simp [updateEntity, hr, apply_ite SystemState.entities,
      updateEntityName_entities, ite_self, aget_aset, hk]
  | none =>
    simp only [updateEntity, hr, updateEntityName_entities]
    by_cases hh : containsHiddenComponent changes s.componentNameToIdMap = true
    · simp [hh, apply_ite SystemState.entities, ite_self, aget_aset, hk]
    · cases hf : changes.find?
          (fun c => decide (some c.1 = aget s.componentNameToIdMap bevyTypes.PARENT)) with
      | some c => simp [hh, hf, apply_ite SystemState.entities, ite_self, aget_aset, hk]
      | none => simp [hh, hf, apply_ite SystemState.entities, ite_self, aget_aset, hk]

/-- Applying a `change` mutation never removes a cached name. -/
theorem updateEntity_change_names_mono (s : SystemState) (e : EntityId)
    (changes : List (ComponentId × Bool × JValue)) (removes : List (ComponentId × Bool))
    (k : EntityId) (h : (aget s.entityNames k).isSome = true) :
    (aget (updateEntity s e (.change changes removes)).entityNames k).isSome = true := by
  cases hr : aget s.entities e with
  | some r0 =>
    simp only [updateEntity, hr]
    split
    · apply updateEntityName_names_mono
      simpa [apply_ite SystemState.entityNames, ite_self] using h
    · simpa [apply_ite SystemState.entityNames, ite_self] using h
  | none =>
    simp only [updateEntity, hr]
    apply updateEntityName_names_mono
    by_cases hh : containsHiddenComponent changes s.componentNameToIdMap = true
    · simpa [hh, apply_ite SystemState.entityNames, ite_self] using h
    · cases hf : changes.find?
          (fun c => decide (some c.1 = aget s.componentNameToIdMap bevyTypes.PARENT)) with
      | some c => simpa [hh, hf, apply_ite SystemState.entityNames, ite_self] using h
      | none => simpa [hh, hf, apply_ite SystemState.entityNames, ite_self] using h

/-- After a `change` mutation for `e`, `e` has a cached name, provided it had
one before or was untracked (in which case the new-entity branch always
recomputes it). -/
theorem updateEntity_change_names_self (s : SystemState) (e : EntityId)
    (changes : List (ComponentId × Bool × JValue)) (removes : List (ComponentId × Bool))
    (h : (aget s.entityNames e).isSome = true ∨ aget s.entities e = none) :
    (aget (updateEntity s e (.change changes removes)).entityNames e).isSome = true := by
  cases hr : aget s.entities e with
  | some r0 =>
    have hname : (aget s.entityNames e).isSome = true := by
      rcases h with h | h
      · exact h
      · rw [hr] at h; cases h
    simp only [updateEntity, hr]
    split
    · exact updateEntityName_names_self _ e
    · simpa [apply_ite SystemState.entityNames, ite_self] using hname
  | none =>
    simp only [updateEntity, hr]
    exact updateEntityName_names_self _ e

/-- One event preserves the names invariant. -/
theorem applyEvent_namesInv (s : SystemState) (ev : StreamEvent)
    (h : namesInv s) : namesInv (applyEvent s ev) := by
  cases ev with
  | typeRegistry types => intro k hk; exact h k hk
  | component comps => intro k hk; exact h k hk
  | schedules => exact h
  | unknown => intro k hk; exact h k hk
  | entity e m =>
    cases m with
    | remove =>
      intro k hk
      replace hk : (aget (adel s.entities e) k).isSome = true := hk
      rw [aget_adel] at hk
      show (aget (adel s.entityNames e) k).isSome = true
      rw [aget_adel]
      by_cases he : e = k
      · simp [he] at hk
      · simp only [he, if_false] at hk ⊢
        exact h k hk
    | unknown => intro k hk; exact h k hk
    | change changes removes =>
      intro k hk
      show (aget (updateEntity s e (.change changes removes)).entityNames k).isSome = true
      by_cases he : e = k
      · subst he
        apply updateEntity_change_names_self s e changes removes
        cases hr : aget s.entities e with
        | some r0 => exact Or.inl (h e (by simp [hr]))
        | none => exact Or.inr rfl
      · replace hk :
            (aget (updateEntity s e (.change changes removes)).entities k).isSome = true := hk
        rw [updateEntity_change_entities_ne s e changes removes k he] at hk
        exact updateEntity_change_names_mono s e changes removes k (h k hk)

theorem initState_namesInv : namesInv initState := by
  intro e h
  simp [initState, aget] at h

theorem process_update_namesInv (evs : List StreamEvent) :
    ∀ s, namesInv s → namesInv (process_update s evs) := by
  induction evs with
  | nil => intro s h; exact h
  | cons i rest ih => intro s h; exact ih (applyEvent s i) (applyEvent_namesInv s i h)

/-- C7: after any batch of stream events processed from the initial state,
every entity present in `entities` is also present in `entityNames` — resolved
names are never empty, so `updateEntityName` always caches, and every branch
that adds an entity ends in a name recomputation. -/
theorem C7_entities_always_named (evs : List StreamEvent) (e : EntityId)
    (h : (aget (process_update initState evs).entities e).isSome = true) :
    (aget (process_update initState evs).entityNames e).isSome = true :=
  process_update_namesInv evs initState initState_namesInv e h

/-- Witness for C7 at a concrete batch: entity 1 is created and indeed named. -/
theorem C7_witness :
    (aget (process_update initState
        [.entity 1 (.change [(2, false, .num 3)] [])]).entities 1).isSome = true
    ∧ (aget (process_update initState
        [.entity 1 (.change [(2, false, .num 3)] [])]).entityNames 1).isSome = true :=
  ⟨rfl, C7_entities_always_named [.entity 1 (.change [(2, false, .num 3)] [])] 1 rfl⟩

/-! ### C8: the designated name component wins -/

/-- C8 as stated is false: an entity whose record contains the designated name
component with the falsy value `""` does not get that value verbatim as its
display name — the truthiness guard makes resolution fall through to the
later stages (here to the component's own type name). -/
theorem C8_counterexample :
    aget (process_update initState
      [.component [⟨5, bevyTypes.NAME⟩],
       .entity 3 (.change [(5, false, .str ""), (6, false, .num 1)] [])]).componentNameToIdMap
      bevyTypes.NAME = some 5
    ∧ entGet (process_update initState
      [.component [⟨5, bevyTypes.NAME⟩],
       .entity 3 (.change [(5, false, .str ""), (6, false, .num 1)] [])]) 3 5
      = some ⟨.str "", false⟩
    ∧ getEntityName (process_update initState
      [.component [⟨5, bevyTypes.NAME⟩],
       .entity 3 (.change [(5, false, .str ""), (6, false, .num 1)] [])]) 3
      = "bevy_ecs::name::Name" :=
  ⟨rfl, rfl, rfl⟩

/-- C8 amended: for every entity whose tracked record contains the designated
name component with a truthy (non-empty string) value, display-name resolution
returns that value verbatim, regardless of any other components present. -/
theorem C8_amended_truthy_name_verbatim (s : SystemState) (e : EntityId)
    (nc : ComponentId) (r : EntityRecord) (nm : String) (d : Bool)
    (hmap : aget s.componentNameToIdMap bevyTypes.NAME = some nc)
    (hent : aget s.entities e = some r)
    (hslot : aget r nc = some ⟨.str nm, d⟩)
    (hne : nm ≠ "") :
    getEntityName s e = nm := by
  have h1 : nameFromNameComponent s r = some nm := by
    unfold nameFromNameComponent
    simp only [hmap]
    simp only [hslot]
    simp [truthy, hne, valueToNameString]
  rw [getEntityName_eq_of_some s e r hent, h1]

/-- Witness for C8 amended at a concrete state. -/
theorem C8_amended_witness :
    getEntityName (process_update initState
      [.component [⟨5, bevyTypes.NAME⟩],
       .entity 3 (.change [(5, false, .str "hello")] [])]) 3 = "hello" :=
  C8_amended_truthy_name_verbatim _ 3 5 [(5, ⟨.str "hello", false⟩)] "hello" false
    rfl rfl rfl (by decide)

/-! ### C6: the name-recompute flag is overwritten, not accumulated -/

/-- C6 is right and the code is wrong: the `changes` loop assigns
`shouldUpdateName = !entityComponents.has(componentId)` instead of or-ing it,
so a later `changes` entry for an already-present component erases the flag
raised by an earlier `removes` deletion.  Failing input: entity 4 tracked with
components 1 and 2; mutation `removes=[(1,false)]` (deletes the present slot 1,
raising the flag) and `changes=[(2,false,7)]` (updates the existing component
2, resetting the flag).  The cached display name stays `"my_crate::Alpha"`
(derived from the deleted component) although recomputation would now yield
`"my_crate::Beta"` — the claim requires the recomputation to happen. -/
theorem C6_flag_overwrite_code_evaluation :
    entGet (process_update initState
      [.component [⟨1, "my_crate::Alpha"⟩, ⟨2, "my_crate::Beta"⟩],
       .entity 4 (.change [(1, false, .num 0), (2, false, .num 1)] [])]) 4 1
      = some ⟨.num 0, false⟩
    ∧ entGet (process_update initState
      [.component [⟨1, "my_crate::Alpha"⟩, ⟨2, "my_crate::Beta"⟩],
       .entity 4 (.change [(1, false, .num 0), (2, false, .num 1)] []),
       .entity 4 (.change [(2, false, .num 7)] [(1, false)])]) 4 1
      = none
    ∧ aget (process_update initState
      [.component [⟨1, "my_crate::Alpha"⟩, ⟨2, "my_crate::Beta"⟩],
       .entity 4 (.change [(1, false, .num 0), (2, false, .num 1)] []),
       .entity 4 (.change [(2, false, .num 7)] [(1, false)])]).entityNames 4
      = some "my_crate::Alpha"
    ∧ getEntityName (process_update initState
      [.component [⟨1, "my_crate::Alpha"⟩, ⟨2, "my_crate::Beta"⟩],
       .entity 4 (.change [(1, false, .num 0), (2, false, .num 1)] []),
       .entity 4 (.change [(2, false, .num 7)] [(1, false)])]) 4
      = "my_crate::Beta" :=
  ⟨rfl, rfl, rfl, rfl⟩

/-! ### Witnesses for the amended theorems with hypotheses -/

/-- Witness for C1 amended: entity 1 tracked with component 7; nothing cached
for the incoming value, so the remove-then-re-add ends in the added state. -/
theorem C1_amended_witness :
    entGet (updateEntity
      (process_update initState [.entity 1 (.change [(7, false, .num 42)] [])])
      1 (.change [(7, true, .num 5)] [(7, false)])) 1 7
      = some ⟨.num 5, true⟩ :=
  C1_amended_removes_then_changes _ 1 7 true (.num 5) rfl (Or.inr (by decide))

/-- Witness for C2 amended: entity 1 already tracked, value 43 not cached —
the repeated identical change writes the slot exactly once. -/
theorem C2_amended_witness :
    writeCount
      (updateEntity
        (updateEntity
          (process_update initState [.entity 1 (.change [(7, false, .num 42)] [])])
          1 (.change [(7, false, .num 43)] []))
        1 (.change [(7, false, .num 43)] []))
      1 7
      = writeCount
          (process_update initState [.entity 1 (.change [(7, false, .num 42)] [])]) 1 7
        + 1 :=
  C2_amended_second_application_suppressed _ 1 7 false (.num 43) rfl
    (fun h => JValue.noConfusion h) (by decide)

/-- Witness for C4 amended, both conjuncts at concrete states. -/
theorem C4_amended_witness :
    (updateEntity (process_update initState
        [.component [⟨1, bevyTypes.PARENT⟩], .entity 2 (.change [(3, false, .num 0)] [])])
      2 (.change [(4, false, .num 1)] [(3, false)])).childParentMap
      = (process_update initState
        [.component [⟨1, bevyTypes.PARENT⟩], .entity 2 (.change [(3, false, .num 0)] [])]).childParentMap
    ∧ (updateEntity (process_update initState
        [.component [⟨1, bevyTypes.PARENT⟩], .entity 2 (.change [(3, false, .num 0)] [])])
      9 (.change [(4, false, .num 1)] [])).childParentMap
      = aset (process_update initState
        [.component [⟨1, bevyTypes.PARENT⟩], .entity 2 (.change [(3, false, .num 0)] [])]).childParentMap
        9 none :=
  ⟨(C4_amended_parent_map_locality _ 2 [(4, false, .num 1)] [(3, false)]).1
      rfl (by decide) (by decide),
   (C4_amended_parent_map_locality _ 9 [(4, false, .num 1)] []).2
      rfl rfl (by decide)⟩

/-- Witness for C5 amended at a concrete state: hidden marker present, parent
component removed — the map entry is exactly the removes-loop clearing. -/
theorem C5_amended_witness :
    (updateEntity (process_update initState
        [.component [⟨1, bevyTypes.PARENT⟩, ⟨2, bevyTypes.OBSERVER⟩],
         .entity 9 (.change [(3, false, .num 5)] [])])
      9 (.change [(2, false, .num 1)] [(1, false)])).childParentMap
      = [(1, false)].foldl
          (fun m p =>
            if some p.1 = aget (process_update initState
              [.component [⟨1, bevyTypes.PARENT⟩, ⟨2, bevyTypes.OBSERVER⟩],
               .entity 9 (.change [(3, false, .num 5)] [])]).componentNameToIdMap
                bevyTypes.PARENT
            then aset m 9 none else m)
          (process_update initState
            [.component [⟨1, bevyTypes.PARENT⟩, ⟨2, bevyTypes.OBSERVER⟩],
             .entity 9 (.change [(3, false, .num 5)] [])]).childParentMap :=
  C5_amended_hidden_skips_changes_derivation _ 9 [(2, false, .num 1)] [(1, false)]
    rfl rfl

/-- Witness for C10 at a concrete state: the cache of entity 1 holds `"42"`
for component 7, and the entry with a different `disabled` flag is skipped. -/
theorem C10_witness :
    applyChangeEntry none false 1
      ⟨[], [], (process_update initState
        [.entity 1 (.change [(7, false, .num 42)] []),
         .entity 1 (.change [(7, false, .num 42)] [])]).componentValueCache, false, []⟩
      (7, true, .num 42)
      = ⟨[], [], (process_update initState
        [.entity 1 (.change [(7, false, .num 42)] []),
         .entity 1 (.change [(7, false, .num 42)] [])]).componentValueCache, false, []⟩
    ∧ updateEntity (process_update initState
        [.entity 1 (.change [(7, false, .num 42)] []),
         .entity 1 (.change [(7, false, .num 42)] [])])
        1 (.change [(7, true, .num 42)] [])
      = { process_update initState
            [.entity 1 (.change [(7, false, .num 42)] []),
             .entity 1 (.change [(7, false, .num 42)] [])] with
          log := (process_update initState
            [.entity 1 (.change [(7, false, .num 42)] []),
             .entity 1 (.change [(7, false, .num 42)] [])]).log
              ++ [.changedComponents 1] } :=
  C10_cache_hit_entry_is_identity _ none false 1
    ⟨[], [], (process_update initState
      [.entity 1 (.change [(7, false, .num 42)] []),
       .entity 1 (.change [(7, false, .num 42)] [])]).componentValueCache, false, []⟩
    7 true (.num 42) rfl rfl (by decide) rfl

end Ironfell
